import Mathlib

/-!
Verification of the OCR ensemble / quality-gate core of `ol-rag-pipeline-core`.

This file is a shallow embedding of the Python modules
`ol_rag_pipeline_core/ocr/quality.py`, `ol_rag_pipeline_core/ocr/ensemble.py`
and the pure parsing part of `ol_rag_pipeline_core/ocr/client.py`, followed by
theorems settling the specification claims about them.

Modelling conventions:
* Python `str` is Lean `String` (code-point for code-point; `len` is
  `String.length`).
* Python `float` arithmetic is modelled exactly over `ℚ`; binary floating
  point rounding is not modelled.
* Python `dict[str, T]` is an association list with insertion-order keys,
  updated by `dictInsert` (replace-in-place, append-if-new), which preserves
  Python's dict semantics of unique keys in insertion order.
* The HTTP transport of `LlmServiceClient` is abstracted: the ensemble runner
  is parametrised by an oracle with the signature of `client.ocr_page`, and
  the response parsing function `_extract_message_content` is modelled over an
  explicit Python-value type.
-/

/-! ## Python character predicates and `str.strip` -/

/-- Code points for which Python `str.isspace` holds (the set stripped by
`str.strip()` with no arguments). -/
def pySpaceCodes : List Nat :=
  [0x09, 0x0A, 0x0B, 0x0C, 0x0D, 0x1C, 0x1D, 0x1E, 0x1F, 0x20, 0x85, 0xA0,
   0x1680, 0x2000, 0x2001, 0x2002, 0x2003, 0x2004, 0x2005, 0x2006, 0x2007,
   0x2008, 0x2009, 0x200A, 0x2028, 0x2029, 0x202F, 0x205F, 0x3000]

/-- Python whitespace test on a single character. -/
def isPySpace (c : Char) : Bool :=
  pySpaceCodes.contains c.toNat

/-- Membership in the regex class `[A-Za-z]` of `quality._ALPHA_RE`. -/
def isAsciiAlpha (c : Char) : Bool :=
  (decide (0x41 ≤ c.toNat) && decide (c.toNat ≤ 0x5A)) ||
  (decide (0x61 ≤ c.toNat) && decide (c.toNat ≤ 0x7A))

/-- Membership in the regex class `[\x20-\x7E\n\t]` of `quality._PRINTABLE_RE`. -/
def isOcrPrintable (c : Char) : Bool :=
  (decide (0x20 ≤ c.toNat) && decide (c.toNat ≤ 0x7E)) ||
  decide (c = '\n') || decide (c = '\t')

/-- Python `str.strip()` on the underlying character list: drop whitespace
from the left, then from the right. -/
def pyStripList (l : List Char) : List Char :=
  ((l.dropWhile isPySpace).reverse.dropWhile isPySpace).reverse

/-- Python `str.strip()`. -/
def pyStrip (s : String) : String :=
  ⟨pyStripList s.data⟩

/-! ## `ocr/quality.py` -/

/-- `OcrQualityReport` (quality.py). -/
structure OcrQualityReport where
  chars : Nat
  alpha_chars : Nat
  alpha_ratio : ℚ
  printable_ratio : ℚ
  looks_empty : Bool
deriving DecidableEq

/-- `OcrQualityGate` (quality.py); defaults 40 / 0.10 / 0.85. -/
structure OcrQualityGate where
  min_chars_per_page : Nat := 40
  min_alpha_ratio : ℚ := 1 / 10
  min_printable_ratio : ℚ := 85 / 100
deriving DecidableEq

/-- `assess_ocr_text_quality` (quality.py). -/
def assess_ocr_text_quality (text : String) : OcrQualityReport :=
  let normalized := pyStrip text
  if normalized = "" then
    { chars := 0, alpha_chars := 0, alpha_ratio := 0, printable_ratio := 0,
      looks_empty := true }
  else
    let chars := normalized.length
    let alpha := normalized.data.countP isAsciiAlpha
    let printable := normalized.data.countP isOcrPrintable
    { chars := chars
      alpha_chars := alpha
      alpha_ratio := (alpha : ℚ) / ((max chars 1 : ℕ) : ℚ)
      printable_ratio := (printable : ℚ) / ((max chars 1 : ℕ) : ℚ)
      looks_empty := false }

/-- `passes_quality_gate` (quality.py). -/
def passes_quality_gate (report : OcrQualityReport) (gate : OcrQualityGate) : Bool :=
  if report.looks_empty then false
  else if report.chars < gate.min_chars_per_page then false
  else if report.alpha_ratio < gate.min_alpha_ratio then false
  else if report.printable_ratio < gate.min_printable_ratio then false
  else true

/-! ## `difflib.SequenceMatcher.ratio` (used by `ensemble._similarity`)

`_similarity(a, b) = difflib.SequenceMatcher(a=a, b=b).ratio()`, with
`isjunk = None` and `autojunk = True`.  With `isjunk = None` the junk set
`bjunk` is empty, so `isbjunk` is constantly false: the two non-junk
extension loops of `find_longest_match` test plain character equality and
the two junk extension loops never run (their guard requires `isbjunk` to
hold) and are therefore omitted below. -/

/-- Append index `i` to the entry of `c` in the `b2j` association map
(`b2j.setdefault(elt, []).append(i)`). -/
def b2jAppend (m : List (Char × List Nat)) (c : Char) (i : Nat) :
    List (Char × List Nat) :=
  match m with
  | [] => [(c, [i])]
  | (c', js) :: rest =>
      if c' = c then (c', js ++ [i]) :: rest else (c', js) :: b2jAppend rest c i

/-- `SequenceMatcher.__chain_b`: build `b2j` from `b`, then (autojunk) purge
popular elements when `len(b) >= 200`.  `isjunk` is `None`, so no junk purge. -/
def b2jOf (b : List Char) : List (Char × List Nat) :=
  let m := (b.enum).foldl (fun acc p => b2jAppend acc p.2 p.1) []
  if 200 ≤ b.length then
    let ntest := b.length / 100 + 1
    m.filter (fun e => decide (e.2.length ≤ ntest))
  else m

/-- `b2j.get(c, [])`. -/
def b2jGet (m : List (Char × List Nat)) (c : Char) : List Nat :=
  match m with
  | [] => []
  | (c', js) :: rest => if c' = c then js else b2jGet rest c

/-- `j2len.get(j - 1, 0)`; Python index `-1` misses the dict, hence the
explicit guard for `j = 0`. -/
def j2lenGet (m : List (Nat × Nat)) (j : Nat) : Nat :=
  if j = 0 then 0
  else match m.lookup (j - 1) with
       | some k => k
       | none => 0

/-- The dynamic-programming core loop of `find_longest_match` (before the
extension loops).  State: current best `(besti, bestj, bestsize)` and the
`j2len` map of the previous row. -/
def flmCore (a : List Char) (m : List (Char × List Nat))
    (alo ahi blo bhi : Nat) : Nat × Nat × Nat :=
  let step := fun (st : (Nat × Nat × Nat) × List (Nat × Nat)) (i : Nat) =>
    let js := ((b2jGet m (a.getD i ' ')).filter (fun j => decide (blo ≤ j))).takeWhile
        (fun j => decide (j < bhi))
    js.foldl
      (fun (st2 : (Nat × Nat × Nat) × List (Nat × Nat)) j =>
        let k := j2lenGet st.2 j + 1
        let nj := st2.2 ++ [(j, k)]
        if st2.1.2.2 < k then ((i + 1 - k, j + 1 - k, k), nj) else (st2.1, nj))
      (st.1, [])
  ((List.range' alo (ahi - alo)).foldl step ((alo, blo, 0), [])).1

/-- The two leftward/rightward extension loops of `find_longest_match`
(with `isbjunk` constantly false).  Indices are in range in every reachable
call, so the `Option`-valued lookups compare equal only on real characters. -/
def flmExtendLeft (a b : List Char) (alo blo besti bestj bestsize : Nat) :
    Nat × Nat × Nat :=
  if h : alo < besti ∧ blo < bestj ∧ a.get? (besti - 1) = b.get? (bestj - 1) then
    flmExtendLeft a b alo blo (besti - 1) (bestj - 1) (bestsize + 1)
  else (besti, bestj, bestsize)
termination_by besti
decreasing_by simp_wf; omega

/-- Rightward extension loop of `find_longest_match`. -/
def flmExtendRight (a b : List Char) (ahi bhi besti bestj bestsize : Nat) : Nat :=
  if h : besti + bestsize < ahi ∧ bestj + bestsize < bhi ∧
      a.get? (besti + bestsize) = b.get? (bestj + bestsize) then
    flmExtendRight a b ahi bhi besti bestj (bestsize + 1)
  else bestsize
termination_by ahi - (besti + bestsize)
decreasing_by simp_wf; omega

/-- `SequenceMatcher.find_longest_match` over the window
`a[alo:ahi]`, `b[blo:bhi]`. -/
def findLongestMatch (a b : List Char) (m : List (Char × List Nat))
    (alo ahi blo bhi : Nat) : Nat × Nat × Nat :=
  let c := flmCore a m alo ahi blo bhi
  let l := flmExtendLeft a b alo blo c.1 c.2.1 c.2.2
  (l.1, l.2.1, flmExtendRight a b ahi bhi l.1 l.2.1 l.2.2)

/-- Total size of the blocks produced by `get_matching_blocks` restricted to a
window (the queue-driven recursion of difflib; block order is irrelevant for
the sum, and the final merge of adjacent blocks preserves it).  `fuel` bounds
the recursion depth; every recursive call strictly shrinks the window, so the
initial fuel `len a + len b + 1` is never exhausted. -/
def matchesSum (a b : List Char) (m : List (Char × List Nat)) :
    Nat → Nat → Nat → Nat → Nat → Nat
  | 0, _, _, _, _ => 0
  | fuel + 1, alo, ahi, blo, bhi =>
    let x := findLongestMatch a b m alo ahi blo bhi
    let i := x.1
    let j := x.2.1
    let k := x.2.2
    if k = 0 then 0
    else
      k + (if alo < i ∧ blo < j then matchesSum a b m fuel alo i blo j else 0)
        + (if i + k < ahi ∧ j + k < bhi then matchesSum a b m fuel (i + k) ahi (j + k) bhi
           else 0)

/-- `ensemble._similarity`: `difflib.SequenceMatcher(a=a, b=b).ratio()`,
i.e. `2 * matches / (len(a) + len(b))`, and `1.0` for two empty strings. -/
def similarity (sa sb : String) : ℚ :=
  let a := sa.data
  let b := sb.data
  let m := b2jOf b
  let nmatches := matchesSum a b m (a.length + b.length + 1) 0 a.length 0 b.length
  let total := a.length + b.length
  if total = 0 then 1 else (2 * nmatches : ℚ) / (total : ℚ)

/-! ## `ensemble._choose_consensus`

`scored` is a Python list of tuples `(avg, len(candidates[e]), e)` sorted with
`scored.sort(reverse=True)`: lexicographically descending on
(average similarity, text length, engine name), where Python compares the
string component by code points. -/

/-- Python string `<=` on the underlying code-point lists. -/
def strLeB : List Char → List Char → Bool
  | [], _ => true
  | _ :: _, [] => false
  | a :: as, b :: bs =>
      if a.toNat < b.toNat then true
      else if a.toNat = b.toNat then strLeB as bs
      else false

/-- Python string `<` on the underlying code-point lists. -/
def strLtB : List Char → List Char → Bool
  | [], [] => false
  | [], _ :: _ => true
  | _ :: _, [] => false
  | a :: as, b :: bs =>
      if a.toNat < b.toNat then true
      else if a.toNat = b.toNat then strLtB as bs
      else false

/-- One entry of the Python `scored` list:
`(average similarity, text length, engine name)`. -/
abbrev ScoreTriple := ℚ × ℕ × String

/-- Python tuple `<=` on score triples (lexicographic; string component by
code points). -/
def tripleLe (x y : ScoreTriple) : Bool :=
  decide (x.1 < y.1) ||
    (decide (x.1 = y.1) &&
      (decide (x.2.1 < y.2.1) ||
        (decide (x.2.1 = y.2.1) && strLeB x.2.2.data y.2.2.data)))

/-- Insert one element into a descending-sorted list of score triples. -/
def insertTripleDesc (x : ScoreTriple) : List ScoreTriple → List ScoreTriple
  | [] => [x]
  | y :: ys => if tripleLe y x then x :: y :: ys else y :: insertTripleDesc x ys

/-- `scored.sort(reverse=True)`: sort score triples in descending
lexicographic order. -/
def sortTriplesDesc : List ScoreTriple → List ScoreTriple
  | [] => []
  | x :: xs => insertTripleDesc x (sortTriplesDesc xs)

/-- Name (key) of the candidate at position `i` of the candidates dict. -/
def nameAt (cands : List (String × String)) (i : Nat) : String :=
  (cands.getD i ("", "")).1

/-- Text (value) of the candidate at position `i` of the candidates dict. -/
def textAt (cands : List (String × String)) (i : Nat) : String :=
  (cands.getD i ("", "")).2

/-- `candidates[k]` (first matching key; unreachable default `""`). -/
def dictGetD (m : List (String × String)) (k : String) : String :=
  match m with
  | [] => ""
  | (k', v) :: rest => if k' = k then v else dictGetD rest k

/-- The symmetric pairwise similarity entry for positions `i ≠ j`: the code
computes `_similarity` once per unordered pair, in index order
(`pairwise[a][b] = pairwise[b][a] = _similarity(candidates[a], candidates[b])`
with `a` before `b` in the engines list). -/
def pairSim (cands : List (String × String)) (i j : Nat) : ℚ :=
  similarity (textAt cands (min i j)) (textAt cands (max i j))

/-- Row `i` of the pairwise similarity matrix: keys `j ≠ i` in index order
(first the earlier engines, then the later ones — i.e. all `j ≠ i`
ascending). -/
def pairwiseRow (cands : List (String × String)) (i : Nat) :
    List (String × ℚ) :=
  (((List.range cands.length).filter (fun j => decide (j ≠ i))).map
    (fun j => (nameAt cands j, pairSim cands i j)))

/-- The full pairwise similarity dict-of-dicts. -/
def pairwiseMatrix (cands : List (String × String)) :
    List (String × List (String × ℚ)) :=
  (List.range cands.length).map (fun i => (nameAt cands i, pairwiseRow cands i))

/-- `avg = sum(sims) / max(len(sims), 1)` for engine `i`, where `sims` are the
values of `pairwise[e]`. -/
def meanSimTo (cands : List (String × String)) (i : Nat) : ℚ :=
  let sims := (((List.range cands.length).filter (fun j => decide (j ≠ i))).map
    (fun j => pairSim cands i j))
  sims.sum / ((max sims.length 1 : ℕ) : ℚ)

/-- The `scored` entry of engine `i`. -/
def scoredTriple (cands : List (String × String)) (i : Nat) : ScoreTriple :=
  (meanSimTo cands i, (textAt cands i).length, nameAt cands i)

/-- The Python `scored` list. -/
def scoredOf (cands : List (String × String)) : List ScoreTriple :=
  (List.range cands.length).map (scoredTriple cands)

/-- Consensus-selection metadata (`_choose_consensus`'s second return value):
winner, average similarity (absent in the single-engine case), pairwise
similarity matrix. -/
structure ConsensusMeta where
  winner : String
  avg_similarity : Option ℚ
  pairwise_similarity : List (String × List (String × ℚ))
deriving DecidableEq

/-- `ensemble._choose_consensus`.  The candidates dict is an association list
with unique keys in insertion (= configured engine) order.  The second
`.error` branch is unreachable: sorting a non-empty list is non-empty. -/
def choose_consensus (candidates : List (String × String)) :
    Except String (String × ConsensusMeta) :=
  match candidates with
  | [] => .error "No OCR candidates provided"
  | [(e, t)] => .ok (t, ⟨e, none, []⟩)
  | _ :: _ :: _ =>
    match sortTriplesDesc (scoredOf candidates) with
    | [] => .error "No OCR candidates provided"
    | (avg, _, best) :: _ =>
        .ok (dictGetD candidates best,
             ⟨best, some avg, pairwiseMatrix candidates⟩)

/-! ## `ocr/client.py`: response payload parsing

The HTTP transport (`httpx`) is outside the model; what is modelled is the
pure parsing function `_extract_message_content` over an explicit type of
Python JSON values, and the fact that its only failure is a `RuntimeError`
whose message mentions neither an engine nor a page. -/

/-- Python JSON values as produced by `r.json()`. -/
inductive PyVal where
  | null : PyVal
  | pbool : Bool → PyVal
  | pint : Int → PyVal
  | pstr : String → PyVal
  | plist : List PyVal → PyVal
  | pdict : List (String × PyVal) → PyVal

/-- Python truthiness of a JSON value. -/
def pyTruthy : PyVal → Bool
  | .null => false
  | .pbool b => b
  | .pint n => decide (n ≠ 0)
  | .pstr s => decide (s ≠ "")
  | .plist l => !l.isEmpty
  | .pdict m => !m.isEmpty

/-- Python `dict.get(k)` with default `None`. -/
def pvGet (m : List (String × PyVal)) (k : String) : PyVal :=
  match m with
  | [] => .null
  | (k', v) :: rest => if k' = k then v else pvGet rest k

/-- `choices[0] if isinstance(choices[0], dict) else {}` /
`first.get("message") if isinstance(first.get("message"), dict) else {}`. -/
def asDict : PyVal → List (String × PyVal)
  | .pdict m => m
  | _ => []

/-- `payload.get("choices") or []`. -/
def choicesOf (payload : List (String × PyVal)) : PyVal :=
  let v := pvGet payload "choices"
  if pyTruthy v then v else .plist []

/-- The `message` dict of a first choice. -/
def msgDictOf (first : List (String × PyVal)) : List (String × PyVal) :=
  asDict (pvGet first "message")

/-- The first choice's `message.content` when it is a string. -/
def contentStrOf (first : List (String × PyVal)) : Option String :=
  match pvGet (msgDictOf first) "content" with
  | .pstr s => some s
  | _ => none

/-- The first choice's top-level `text` field when it is a string. -/
def textStrOf (first : List (String × PyVal)) : Option String :=
  match pvGet first "text" with
  | .pstr s => some s
  | _ => none

/-- `client._extract_message_content`. -/
def extract_message_content (payload : List (String × PyVal)) :
    Except String String :=
  match choicesOf payload with
  | .plist (c0 :: _) =>
      let first := asDict c0
      match contentStrOf first with
      | some s => if pyStrip s ≠ "" then .ok (pyStrip s) else .ok ""
      | none =>
          match textStrOf first with
          | some t => if pyStrip t ≠ "" then .ok (pyStrip t) else .ok ""
          | none => .ok ""
  | _ => .error "OpenAI response missing choices"

/-! ## `ocr/ensemble.py`: data model and runner -/

/-- `client.OcrEngineSpec`. -/
structure OcrEngineSpec where
  engine : String
deriving DecidableEq

/-- `OcrEngineSpec.openai_model`: the fixed `"ocr/"` prefix plus the engine
name. -/
def OcrEngineSpec.openai_model (e : OcrEngineSpec) : String :=
  "ocr/" ++ e.engine

/-- `client.OcrPageInput`: 1-based page number and raw PNG bytes (the bytes
are never interpreted by the ensemble, only forwarded to the engine call). -/
structure OcrPageInput where
  page_number : Nat
  png_bytes : List Nat
deriving DecidableEq

/-- Python dict insertion `d[k] = v`: replace in place if the key exists,
append otherwise. -/
def dictInsert {α : Type} (m : List (String × α)) (k : String) (v : α) :
    List (String × α) :=
  match m with
  | [] => [(k, v)]
  | (k', v') :: rest =>
      if k' = k then (k', v) :: rest else (k', v') :: dictInsert rest k v

/-- Floor of a rational (the denominator is positive, so Euclidean division
of the numerator is floor division). -/
def ratFloor (q : ℚ) : Int :=
  q.num.ediv (q.den : Int)

/-- Python `round(x, 4)`: round half to even at four decimal places.
(The binary floating-point representation is not modelled; this is exact
decimal rounding of the rational value.) -/
def pyRound4 (q : ℚ) : ℚ :=
  let scaled := q * 10000
  let f := ratFloor scaled
  let frac := scaled - (f : ℚ)
  let r : Int :=
    if frac < 1 / 2 then f
    else if 1 / 2 < frac then f + 1
    else if f % 2 = 0 then f else f + 1
  (r : ℚ) / 10000

/-- The per-engine quality dict stored in `quality_by_engine`:
`{"chars": q.chars, "alpha_ratio": round(q.alpha_ratio, 4),
"printable_ratio": round(q.printable_ratio, 4)}`. -/
structure EngineQualityMetrics where
  chars : Nat
  alpha_ratio : ℚ
  printable_ratio : ℚ
deriving DecidableEq

/-- `ensemble.OcrPageResult`. -/
structure OcrPageResult where
  page_number : Nat
  consensus_text : String
  engine_texts : List (String × String)
  quality_by_engine : List (String × EngineQualityMetrics)
  consensus_meta : ConsensusMeta
  passed_gate : Bool
deriving DecidableEq

/-- `ensemble.OcrEnsembleResult`. -/
structure OcrEnsembleResult where
  pages : List OcrPageResult
  merged_text : String
  overall_passed : Bool
deriving DecidableEq

/-- `ensemble.OcrEnsembleConfig`. -/
structure OcrEnsembleConfig where
  engines : List OcrEngineSpec
  quality_gate : OcrQualityGate := {}
  prompt : String := "Read all text in the image. Output plain text only."
  max_tokens : Nat := 512
deriving DecidableEq

/-- The engine call `client.ocr_page(engine=…, page=…, prompt=…,
max_tokens=…) -> str`, abstracted over the HTTP transport.  A run that
completes corresponds to an oracle that answers every call. -/
def OcrOracle : Type :=
  OcrEngineSpec → OcrPageInput → String → Nat → String

/-- The quality metrics recorded for one engine's text. -/
def engineMetrics (text : String) : EngineQualityMetrics :=
  let q := assess_ocr_text_quality text
  ⟨q.chars, pyRound4 q.alpha_ratio, pyRound4 q.printable_ratio⟩

/-- The per-page body of the loop in `run_ocr_ensemble`: call every
configured engine in order, filling the `engine_texts` and
`quality_by_engine` dicts, then select the consensus and gate it. -/
def processPage (ocr : OcrOracle) (cfg : OcrEnsembleConfig)
    (page : OcrPageInput) : Except String OcrPageResult :=
  let engine_texts := cfg.engines.foldl
    (fun d e => dictInsert d e.engine (ocr e page cfg.prompt cfg.max_tokens)) []
  let quality_by_engine := cfg.engines.foldl
    (fun d e =>
      dictInsert d e.engine (engineMetrics (ocr e page cfg.prompt cfg.max_tokens))) []
  match choose_consensus engine_texts with
  | .error e => .error e
  | .ok (consensus_text, consensus_meta) =>
      .ok { page_number := page.page_number
            consensus_text := consensus_text
            engine_texts := engine_texts
            quality_by_engine := quality_by_engine
            consensus_meta := consensus_meta
            passed_gate := passes_quality_gate
              (assess_ocr_text_quality consensus_text) cfg.quality_gate }

/-- The page loop of `run_ocr_ensemble` (exceptions propagate and abort the
whole run). -/
def runPages (ocr : OcrOracle) (cfg : OcrEnsembleConfig) :
    List OcrPageInput → Except String (List OcrPageResult)
  | [] => .ok []
  | p :: ps =>
      match processPage ocr cfg p with
      | .error e => .error e
      | .ok r =>
          match runPages ocr cfg ps with
          | .error e => .error e
          | .ok rs => .ok (r :: rs)

/-- One page's contribution to `merged_lines`:
`f"\n\n--- PAGE {r.page_number} ---\n\n"` followed by
`r.consensus_text.strip()`. -/
def chunkOf (r : OcrPageResult) : String :=
  "\n\n--- PAGE " ++ toString r.page_number ++ " ---\n\n" ++ pyStrip r.consensus_text

/-- `"".join(...)`. -/
def strJoin : List String → String
  | [] => ""
  | s :: ss => s ++ strJoin ss

/-- `ensemble.run_ocr_ensemble`. -/
def run_ocr_ensemble (ocr : OcrOracle) (pages : List OcrPageInput)
    (cfg : OcrEnsembleConfig) : Except String OcrEnsembleResult :=
  if cfg.engines = [] then .error "cfg.engines must not be empty"
  else
    match runPages ocr cfg pages with
    | .error e => .error e
    | .ok results =>
        .ok { pages := results
              merged_text := pyStrip (strJoin (results.map chunkOf)) ++ "\n"
              overall_passed :=
                results.foldl (fun ok r => ok && r.passed_gate) true }

/-! ### Concrete inputs used by the witnesses -/

/-- A constant-answer engine-call oracle. -/
def demoOracleHello : OcrOracle := fun _ _ _ _ => "Hello world"

/-- An oracle distinguishing two engines with nearby answers. -/
def demoOracleAB : OcrOracle := fun e _ _ _ =>
  if e.engine = "a" then "abcd" else "abxd"

/-- A 1-page input. -/
def demoPage1 : OcrPageInput := ⟨1, []⟩

/-- A second page input. -/
def demoPage2 : OcrPageInput := ⟨2, [7]⟩

/-- A permissive single-engine configuration. -/
def demoCfg1 : OcrEnsembleConfig :=
  { engines := [⟨"e"⟩], quality_gate := ⟨3, 0, 0⟩, prompt := "p", max_tokens := 16 }

/-- A permissive two-engine configuration. -/
def demoCfg2 : OcrEnsembleConfig :=
  { engines := [⟨"a"⟩, ⟨"b"⟩], quality_gate := ⟨3, 0, 0⟩, prompt := "p", max_tokens := 16 }

/-! ### Helper definitions used only in theorem statements -/

/-- The page block the merge specification describes: the delimiter line
`--- PAGE <n> ---` followed by the page's consensus text trimmed of
surrounding whitespace. -/
def pageBlock (n : Nat) (t : String) : String :=
  "--- PAGE " ++ toString n ++ " ---\n\n" ++ pyStrip t

/-- Blank-line-separated join of page blocks. -/
def sepJoin : List String → String
  | [] => ""
  | [b] => b
  | b :: bs => b ++ "\n\n" ++ sepJoin bs

/-- The error message of an `Except`, when it is an error. -/
def exErr {α : Type} : Except String α → Option String
  | .error e => some e
  | .ok _ => none

instance {α β : Type} [DecidableEq α] [DecidableEq β] :
    DecidableEq (Except α β) := fun x y =>
  match x, y with
  | .ok a, .ok b =>
      match decEq a b with
      | isTrue h => isTrue (by rw [h])
      | isFalse h => isFalse (fun he => h (Except.ok.inj he))
  | .error a, .error b =>
      match decEq a b with
      | isTrue h => isTrue (by rw [h])
      | isFalse h => isFalse (fun he => h (Except.error.inj he))
  | .ok _, .error _ => isFalse (fun he => Except.noConfusion he)
  | .error _, .ok _ => isFalse (fun he => Except.noConfusion he)

/-! ## Lemmas about `pyStrip` -/

theorem pyStrip_data (s : String) : (pyStrip s).data = pyStripList s.data := rfl

theorem pyStripList_cons_space {c : Char} (h : isPySpace c = true) (l : List Char) :
    pyStripList (c :: l) = pyStripList l := by
  simp [pyStripList, List.dropWhile_cons, h]

theorem head?_dropWhile_not {p : Char → Bool} :
    ∀ {l : List Char} {c : Char}, (l.dropWhile p).head? = some c → p c = false := by
  intro l
  induction l with
  | nil => intro c h; simp [List.dropWhile] at h
  | cons a as ih =>
      intro c h
      by_cases hp : p a
      · rw [List.dropWhile_cons_of_pos hp] at h
        exact ih h
      · rw [List.dropWhile_cons_of_neg hp] at h
        simp at h
        subst h
        exact Bool.of_not_eq_true hp

theorem dropWhile_ne_nil_of_exists {p : Char → Bool} {l : List Char}
    (h : ∃ c ∈ l, p c = false) : l.dropWhile p ≠ [] := by
  intro hnil
  rcases h with ⟨c, hc, hpc⟩
  have := List.dropWhile_eq_nil_iff.mp hnil c hc
  simp [hpc] at this

theorem pyStripList_ne_nil {l : List Char}
    (h : ∃ c ∈ l, isPySpace c = false) : pyStripList l ≠ [] := by
  unfold pyStripList
  intro hnil
  have h1 : l.dropWhile isPySpace ≠ [] := dropWhile_ne_nil_of_exists h
  rcases List.exists_cons_of_ne_nil h1 with ⟨c, cs, hc⟩
  have hpc : isPySpace c = false := by
    have : (l.dropWhile isPySpace).head? = some c := by rw [hc]; rfl
    exact head?_dropWhile_not this
  have h2 : (l.dropWhile isPySpace).reverse.dropWhile isPySpace ≠ [] := by
    apply dropWhile_ne_nil_of_exists
    exact ⟨c, by simp [hc], hpc⟩
  simp only [List.reverse_eq_nil_iff] at hnil
  exact h2 hnil

theorem pyStripList_getLast_not_space {l : List Char} {c : Char}
    (h : (pyStripList l).getLast? = some c) : isPySpace c = false := by
  unfold pyStripList at h
  rw [List.getLast?_reverse] at h
  exact head?_dropWhile_not h


theorem string_eq_empty_of_data_nil {s : String} (h : s.data = []) : s = "" := by
  cases s with
  | mk l =>
      have h' : l = [] := h
      cases h'
      rfl

/-! ## Lemmas about the quality assessor -/

theorem passes_quality_gate_iff (r : OcrQualityReport) (g : OcrQualityGate) :
    passes_quality_gate r g = true ↔
      r.looks_empty = false ∧ g.min_chars_per_page ≤ r.chars ∧
      g.min_alpha_ratio ≤ r.alpha_ratio ∧
      g.min_printable_ratio ≤ r.printable_ratio := by
  unfold passes_quality_gate
  split_ifs with h1 h2 h3 h4
  · simp [h1]
  · simp only [Bool.false_eq_true, false_iff]
    intro hc
    exact absurd h2 (not_lt.mpr hc.2.1)
  · simp only [Bool.false_eq_true, false_iff]
    intro hc
    exact absurd h3 (not_lt.mpr hc.2.2.1)
  · simp only [Bool.false_eq_true, false_iff]
    intro hc
    exact absurd h4 (not_lt.mpr hc.2.2.2)
  · simp only [true_iff]
    exact ⟨by simpa using h1, not_lt.mp h2, not_lt.mp h3, not_lt.mp h4⟩

/-! ## Theorems for the claims (quality assessor) -/

/-- C2: for every quality report and gate, `passes` returns false when the
report looks empty, when `chars` is below `min_chars_per_page`, when
`alpha_ratio` is below `min_alpha_ratio`, when `printable_ratio` is below
`min_printable_ratio`, and true otherwise. -/
theorem c2_passes_gate_contract (r : OcrQualityReport) (g : OcrQualityGate) :
    (r.looks_empty = true → passes_quality_gate r g = false) ∧
    (r.chars < g.min_chars_per_page → passes_quality_gate r g = false) ∧
    (r.alpha_ratio < g.min_alpha_ratio → passes_quality_gate r g = false) ∧
    (r.printable_ratio < g.min_printable_ratio → passes_quality_gate r g = false) ∧
    (r.looks_empty = false → ¬r.chars < g.min_chars_per_page →
      ¬r.alpha_ratio < g.min_alpha_ratio →
      ¬r.printable_ratio < g.min_printable_ratio →
      passes_quality_gate r g = true) := by
  have hiff := passes_quality_gate_iff r g
  refine ⟨?_, ?_, ?_, ?_, ?_⟩
  · intro h
    apply Bool.eq_false_iff.mpr
    intro ht
    rcases hiff.mp ht with ⟨he, -, -, -⟩
    rw [h] at he
    cases he
  · intro h
    apply Bool.eq_false_iff.mpr
    intro ht
    exact absurd h (not_lt.mpr (hiff.mp ht).2.1)
  · intro h
    apply Bool.eq_false_iff.mpr
    intro ht
    exact absurd h (not_lt.mpr (hiff.mp ht).2.2.1)
  · intro h
    apply Bool.eq_false_iff.mpr
    intro ht
    exact absurd h (not_lt.mpr (hiff.mp ht).2.2.2)
  · intro h1 h2 h3 h4
    exact hiff.mpr ⟨h1, not_lt.mp h2, not_lt.mp h3, not_lt.mp h4⟩

/-- Witness for C2 at a concrete report and gate. -/
theorem c2_passes_gate_contract_witness :
    passes_quality_gate ⟨50, 40, 8/10, 1, false⟩ ⟨40, 1/10, 85/100⟩ = true :=
  (c2_passes_gate_contract ⟨50, 40, 8/10, 1, false⟩ ⟨40, 1/10, 85/100⟩).2.2.2.2
    rfl (by decide) (by norm_num) (by norm_num)

/-- C3: `assess` trims the input; on an all-whitespace input it returns the
all-zero, `looks_empty` report; otherwise `chars` is the trimmed length,
`alpha_chars` counts ASCII letters, the two ratios are the corresponding
counts divided by `chars`, and both ratios lie in `[0, 1]`. -/
theorem c3_assess_contract (s : String) :
    (pyStrip s = "" →
      assess_ocr_text_quality s =
        { chars := 0, alpha_chars := 0, alpha_ratio := 0, printable_ratio := 0,
          looks_empty := true }) ∧
    (pyStrip s ≠ "" →
      (assess_ocr_text_quality s).chars = (pyStrip s).length ∧
      (assess_ocr_text_quality s).alpha_chars =
        (pyStrip s).data.countP isAsciiAlpha ∧
      (assess_ocr_text_quality s).alpha_ratio =
        ((pyStrip s).data.countP isAsciiAlpha : ℚ) / ((pyStrip s).length : ℚ) ∧
      (assess_ocr_text_quality s).printable_ratio =
        ((pyStrip s).data.countP isOcrPrintable : ℚ) / ((pyStrip s).length : ℚ) ∧
      (assess_ocr_text_quality s).looks_empty = false ∧
      0 ≤ (assess_ocr_text_quality s).alpha_ratio ∧
      (assess_ocr_text_quality s).alpha_ratio ≤ 1 ∧
      0 ≤ (assess_ocr_text_quality s).printable_ratio ∧
      (assess_ocr_text_quality s).printable_ratio ≤ 1) := by
  constructor
  · intro h
    unfold assess_ocr_text_quality
    rw [if_pos h]
  · intro h
    have hdata : (pyStrip s).data ≠ [] := fun hd => h (string_eq_empty_of_data_nil hd)
    have hlen : 0 < (pyStrip s).length := List.length_pos.mpr hdata
    have hmax : max (pyStrip s).length 1 = (pyStrip s).length :=
      Nat.max_eq_left hlen
    have heq : assess_ocr_text_quality s =
        { chars := (pyStrip s).length
          alpha_chars := (pyStrip s).data.countP isAsciiAlpha
          alpha_ratio := ((pyStrip s).data.countP isAsciiAlpha : ℚ) /
            ((pyStrip s).length : ℚ)
          printable_ratio := ((pyStrip s).data.countP isOcrPrintable : ℚ) /
            ((pyStrip s).length : ℚ)
          looks_empty := false } := by
      unfold assess_ocr_text_quality
      rw [if_neg h]
      simp only [hmax]
    rw [heq]
    have halpha : (pyStrip s).data.countP isAsciiAlpha ≤ (pyStrip s).length :=
      List.countP_le_length _
    have hprint : (pyStrip s).data.countP isOcrPrintable ≤ (pyStrip s).length :=
      List.countP_le_length _
    have hposQ : (0 : ℚ) < ((pyStrip s).length : ℚ) := by exact_mod_cast hlen
    refine ⟨rfl, rfl, rfl, rfl, rfl, ?_, ?_, ?_, ?_⟩
    · positivity
    · rw [div_le_one hposQ]; exact_mod_cast halpha
    · positivity
    · rw [div_le_one hposQ]; exact_mod_cast hprint

/-- Witness for C3 at the concrete input `" hi "`. -/
theorem c3_assess_contract_witness :
    pyStrip " hi " ≠ "" ∧
    ((assess_ocr_text_quality " hi ").chars = (pyStrip " hi ").length ∧
      (assess_ocr_text_quality " hi ").alpha_chars =
        (pyStrip " hi ").data.countP isAsciiAlpha ∧
      (assess_ocr_text_quality " hi ").alpha_ratio =
        ((pyStrip " hi ").data.countP isAsciiAlpha : ℚ) /
          ((pyStrip " hi ").length : ℚ) ∧
      (assess_ocr_text_quality " hi ").printable_ratio =
        ((pyStrip " hi ").data.countP isOcrPrintable : ℚ) /
          ((pyStrip " hi ").length : ℚ) ∧
      (assess_ocr_text_quality " hi ").looks_empty = false ∧
      0 ≤ (assess_ocr_text_quality " hi ").alpha_ratio ∧
      (assess_ocr_text_quality " hi ").alpha_ratio ≤ 1 ∧
      0 ≤ (assess_ocr_text_quality " hi ").printable_ratio ∧
      (assess_ocr_text_quality " hi ").printable_ratio ≤ 1) :=
  ⟨by decide, (c3_assess_contract " hi ").2 (by decide)⟩

/-- C9: for a fixed report, a gate that raises thresholds (and lowers none)
can only turn a pass into a fail: if `passes` is false for the lower gate it
is false for the higher gate. -/
theorem c9_passes_gate_monotone (r : OcrQualityReport) (g1 g2 : OcrQualityGate)
    (hc : g1.min_chars_per_page ≤ g2.min_chars_per_page)
    (ha : g1.min_alpha_ratio ≤ g2.min_alpha_ratio)
    (hp : g1.min_printable_ratio ≤ g2.min_printable_ratio)
    (hfail : passes_quality_gate r g1 = false) :
    passes_quality_gate r g2 = false := by
  apply Bool.eq_false_iff.mpr
  intro ht
  rcases (passes_quality_gate_iff r g2).mp ht with ⟨he, hcs, has, hps⟩
  have h1 : passes_quality_gate r g1 = true :=
    (passes_quality_gate_iff r g1).mpr
      ⟨he, le_trans hc hcs, le_trans ha has, le_trans hp hps⟩
  rw [h1] at hfail
  cases hfail

/-- Witness for C9: a report failing a low gate on `chars` also fails a
higher gate. -/
theorem c9_passes_gate_monotone_witness :
    passes_quality_gate ⟨5, 5, 1, 1, false⟩ ⟨10, 0, 0⟩ = false ∧
    passes_quality_gate ⟨5, 5, 1, 1, false⟩ ⟨20, 1/10, 1/10⟩ = false :=
  ⟨by decide,
   c9_passes_gate_monotone ⟨5, 5, 1, 1, false⟩ ⟨10, 0, 0⟩ ⟨20, 1/10, 1/10⟩
     (by decide) (by norm_num) (by norm_num) (by decide)⟩

/-- C7 (amended): for every gateway response payload, if the first choice's
message content is a string, the call returns that content trimmed of
surrounding whitespace (hence `""` for a whitespace-only string); otherwise,
if the first choice has a top-level string `text` field, the call returns
that text trimmed; otherwise the call returns the empty string without
raising.  A payload whose `choices` entry is missing, falsy, empty or not a
list fails with the constant message `"OpenAI response missing choices"`
(a `RuntimeError` that carries neither the engine name nor the page
number). -/
theorem c7_extract_contract (payload : List (String × PyVal)) :
    (((∀ l, choicesOf payload ≠ PyVal.plist l) ∨ choicesOf payload = PyVal.plist []) →
      extract_message_content payload = .error "OpenAI response missing choices") ∧
    (∀ c0 rest, choicesOf payload = PyVal.plist (c0 :: rest) →
      (∀ s, contentStrOf (asDict c0) = some s →
        extract_message_content payload = .ok (pyStrip s)) ∧
      (contentStrOf (asDict c0) = none →
        (∀ t, textStrOf (asDict c0) = some t →
          extract_message_content payload = .ok (pyStrip t)) ∧
        (textStrOf (asDict c0) = none →
          extract_message_content payload = .ok ""))) := by
  constructor
  · intro h
    unfold extract_message_content
    rcases hval : choicesOf payload with _ | b | n | s | l | m
    · rfl
    · rfl
    · rfl
    · rfl
    · cases l with
      | nil => rfl
      | cons c0 cs =>
          rcases h with h | h
          · exact absurd hval (h _)
          · rw [hval] at h
            cases h
    · rfl
  · intro c0 rest hc
    refine ⟨?_, ?_⟩
    · intro s hs
      unfold extract_message_content
      rw [hc]
      simp only [hs]
      by_cases he : pyStrip s = ""
      · rw [if_neg (by simp [he])]
        rw [he]
      · rw [if_pos he]
    · intro hnone
      refine ⟨?_, ?_⟩
      · intro t ht
        unfold extract_message_content
        rw [hc]
        simp only [hnone, ht]
        by_cases he : pyStrip t = ""
        · rw [if_neg (by simp [he])]
          rw [he]
        · rw [if_pos he]
      · intro htn
        unfold extract_message_content
        rw [hc]
        simp only [hnone, htn]

/-- C7 counterexample: a first choice whose message content is the present,
non-empty string `" x "` makes the call return the trimmed `"x"`, not the
content `" x "` itself, refuting the claim as stated. -/
theorem c7_counterexample :
    extract_message_content
      [("choices", PyVal.plist [PyVal.pdict
        [("message", PyVal.pdict [("content", PyVal.pstr " x ")])]])] =
      .ok "x" ∧ (" x " : String) ≠ "x" :=
  ⟨rfl, by decide⟩

/-- Witness for C7 at a concrete payload. -/
theorem c7_extract_contract_witness :
    choicesOf [("choices", PyVal.plist [PyVal.pdict
        [("message", PyVal.pdict [("content", PyVal.pstr " ok ")])]])] =
      PyVal.plist [PyVal.pdict [("message", PyVal.pdict [("content", PyVal.pstr " ok ")])]] ∧
    contentStrOf (asDict (PyVal.pdict
        [("message", PyVal.pdict [("content", PyVal.pstr " ok ")])])) = some " ok " ∧
    extract_message_content [("choices", PyVal.plist [PyVal.pdict
        [("message", PyVal.pdict [("content", PyVal.pstr " ok ")])]])] = .ok (pyStrip " ok ") :=
  ⟨rfl, rfl,
   ((c7_extract_contract [("choices", PyVal.plist [PyVal.pdict
        [("message", PyVal.pdict [("content", PyVal.pstr " ok ")])]])]).2
      (PyVal.pdict [("message", PyVal.pdict [("content", PyVal.pstr " ok ")])])
      [] rfl).1 " ok " rfl⟩

/-- C8: with an empty configured engine list the ensemble fails immediately
with the configuration error, for every oracle and every page list — so no
page is processed and no engine call is made — and produces no result. -/
theorem c8_empty_engines_error (ocr : OcrOracle) (pages : List OcrPageInput)
    (cfg : OcrEnsembleConfig) (h : cfg.engines = []) :
    run_ocr_ensemble ocr pages cfg = .error "cfg.engines must not be empty" := by
  unfold run_ocr_ensemble
  rw [if_pos h]

/-- Witness for C8 at a concrete configuration. -/
theorem c8_empty_engines_error_witness :
    (OcrEnsembleConfig.engines { engines := [] } = []) ∧
    run_ocr_ensemble demoOracleHello [demoPage1] { engines := [] } =
      .error "cfg.engines must not be empty" :=
  ⟨rfl, c8_empty_engines_error demoOracleHello [demoPage1] { engines := [] } rfl⟩

/-- C10: with a non-empty engine list, running the ensemble on an empty page
list succeeds with no pages, merged text `"\n"`, and `overall_passed =
true`. -/
theorem c10_zero_pages (ocr : OcrOracle) (cfg : OcrEnsembleConfig)
    (h : cfg.engines ≠ []) :
    run_ocr_ensemble ocr [] cfg =
      .ok { pages := [], merged_text := "\n", overall_passed := true } := by
  unfold run_ocr_ensemble
  rw [if_neg h]
  rfl

/-- Witness for C10 at a concrete configuration. -/
theorem c10_zero_pages_witness :
    demoCfg1.engines ≠ [] ∧
    run_ocr_ensemble demoOracleHello [] demoCfg1 =
      .ok { pages := [], merged_text := "\n", overall_passed := true } :=
  ⟨by decide, c10_zero_pages demoOracleHello demoCfg1 (by decide)⟩

theorem char_eq_of_toNat_eq {a b : Char} (h : a.toNat = b.toNat) : a = b :=
  Char.ext (UInt32.ext h)

theorem strLeB_refl : ∀ l : List Char, strLeB l l = true := by
  intro l
  induction l with
  | nil => rfl
  | cons a as ih => simp [strLeB, ih]

theorem strLeB_total : ∀ l m : List Char, strLeB l m = true ∨ strLeB m l = true := by
  intro l
  induction l with
  | nil => intro m; left; rfl
  | cons a as ih =>
      intro m
      cases m with
      | nil => right; rfl
      | cons b bs =>
          rcases lt_trichotomy a.toNat b.toNat with h | h | h
          · left; simp [strLeB, h]
          · rcases ih bs with h2 | h2
            · left; simp [strLeB, h, lt_irrefl, h2]
            · right; simp [strLeB, h.symm, lt_irrefl, h2]
          · right; simp [strLeB, h]

theorem strLeB_trans : ∀ l m n : List Char,
    strLeB l m = true → strLeB m n = true → strLeB l n = true := by
  intro l
  induction l with
  | nil => intro m n _ _; rfl
  | cons a as ih =>
      intro m n h1 h2
      cases m with
      | nil => simp [strLeB] at h1
      | cons b bs =>
          cases n with
          | nil => simp [strLeB] at h2
          | cons c cs =>
              simp only [strLeB] at h1 h2 ⊢
              split_ifs at h1 h2 ⊢ with hab hab' hbc hbc' hac hac' <;>
                first
                  | rfl
                  | omega
                  | (exact ih bs cs h1 h2)
                  | simp_all

theorem strLtB_of_le_of_ne : ∀ l m : List Char,
    strLeB l m = true → l ≠ m → strLtB l m = true := by
  intro l
  induction l with
  | nil =>
      intro m _ hne
      cases m with
      | nil => exact absurd rfl hne
      | cons b bs => rfl
  | cons a as ih =>
      intro m hle hne
      cases m with
      | nil => simp [strLeB] at hle
      | cons b bs =>
          simp only [strLeB] at hle
          simp only [strLtB]
          split_ifs at hle ⊢ with h1 h2
          · rfl
          · have hab : a = b := char_eq_of_toNat_eq h2
            apply ih bs hle
            intro he
            exact hne (by rw [hab, he])

theorem tripleLe_iff (x y : ScoreTriple) :
    tripleLe x y = true ↔
      x.1 < y.1 ∨ (x.1 = y.1 ∧ (x.2.1 < y.2.1 ∨
        (x.2.1 = y.2.1 ∧ strLeB x.2.2.data y.2.2.data = true))) := by
  simp [tripleLe, Bool.or_eq_true, Bool.and_eq_true, decide_eq_true_eq]

theorem tripleLe_refl (x : ScoreTriple) : tripleLe x x = true :=
  (tripleLe_iff x x).mpr (Or.inr ⟨rfl, Or.inr ⟨rfl, strLeB_refl _⟩⟩)

theorem tripleLe_total (x y : ScoreTriple) :
    tripleLe x y = true ∨ tripleLe y x = true := by
  rcases lt_trichotomy x.1 y.1 with h | h | h
  · exact Or.inl ((tripleLe_iff x y).mpr (Or.inl h))
  · rcases lt_trichotomy x.2.1 y.2.1 with h2 | h2 | h2
    · exact Or.inl ((tripleLe_iff x y).mpr (Or.inr ⟨h, Or.inl h2⟩))
    · rcases strLeB_total x.2.2.data y.2.2.data with h3 | h3
      · exact Or.inl ((tripleLe_iff x y).mpr (Or.inr ⟨h, Or.inr ⟨h2, h3⟩⟩))
      · exact Or.inr ((tripleLe_iff y x).mpr (Or.inr ⟨h.symm, Or.inr ⟨h2.symm, h3⟩⟩))
    · exact Or.inr ((tripleLe_iff y x).mpr (Or.inr ⟨h.symm, Or.inl h2⟩))
  · exact Or.inr ((tripleLe_iff y x).mpr (Or.inl h))

theorem tripleLe_trans {x y z : ScoreTriple}
    (h1 : tripleLe x y = true) (h2 : tripleLe y z = true) :
    tripleLe x z = true := by
  rcases (tripleLe_iff x y).mp h1 with ha | ⟨ha, hb⟩ <;>
    rcases (tripleLe_iff y z).mp h2 with hc | ⟨hc, hd⟩
  · exact (tripleLe_iff x z).mpr (Or.inl (lt_trans ha hc))
  · exact (tripleLe_iff x z).mpr (Or.inl (hc ▸ ha))
  · exact (tripleLe_iff x z).mpr (Or.inl (ha ▸ hc))
  · refine (tripleLe_iff x z).mpr (Or.inr ⟨ha.trans hc, ?_⟩)
    rcases hb with hb | ⟨hb, hb2⟩ <;> rcases hd with hd | ⟨hd, hd2⟩
    · exact Or.inl (lt_trans hb hd)
    · exact Or.inl (hd ▸ hb)
    · exact Or.inl (hb ▸ hd)
    · exact Or.inr ⟨hb.trans hd, strLeB_trans _ _ _ hb2 hd2⟩

theorem sortTriplesDesc_head_max :
    ∀ l : List ScoreTriple, l ≠ [] →
      ∃ t r, sortTriplesDesc l = t :: r ∧ t ∈ l ∧ ∀ x ∈ l, tripleLe x t = true := by
  intro l
  induction l with
  | nil => intro h; exact absurd rfl h
  | cons x xs ih =>
      intro _
      cases hxs : xs with
      | nil =>
          refine ⟨x, [], by simp [sortTriplesDesc, insertTripleDesc], by simp, ?_⟩
          intro z hz
          simp at hz
          rw [hz]
          exact tripleLe_refl x
      | cons y ys =>
          rw [← hxs]
          have hxs' : xs ≠ [] := by rw [hxs]; exact List.cons_ne_nil _ _
          rcases ih hxs' with ⟨t, r, hs, hmem, hmax⟩
          by_cases hle : tripleLe t x = true
          · refine ⟨x, t :: r, ?_, List.mem_cons_self _ _, ?_⟩
            · rw [sortTriplesDesc, hs]
              simp [insertTripleDesc, hle]
            · intro z hz
              rcases List.mem_cons.mp hz with hz | hz
              · rw [hz]; exact tripleLe_refl x
              · exact tripleLe_trans (hmax z hz) hle
          · have hxt : tripleLe x t = true := by
              rcases tripleLe_total x t with h | h
              · exact h
              · exact absurd h hle
            have hlef : tripleLe t x = false := by
              cases hb : tripleLe t x
              · rfl
              · exact absurd hb hle
            refine ⟨t, insertTripleDesc x r, ?_, List.mem_cons_of_mem _ hmem, ?_⟩
            · rw [sortTriplesDesc, hs]
              simp [insertTripleDesc, hlef]
            · intro z hz
              rcases List.mem_cons.mp hz with hz | hz
              · rw [hz]; exact hxt
              · exact hmax z hz

theorem string_ext' {a b : String} (h : a.data = b.data) : a = b := by
  cases a with
  | mk l1 =>
      cases b with
      | mk l2 =>
          have h' : l1 = l2 := h
          cases h'
          rfl

theorem getD_eq_get {α : Type} (l : List α) (d : α) {i : Nat} (h : i < l.length) :
    l.getD i d = l.get ⟨i, h⟩ := by
  rw [List.getD_eq_get?, List.get?_eq_get h]
  rfl

theorem nameAt_mem_keys {cands : List (String × String)} {w : Nat}
    (h : w < cands.length) : nameAt cands w ∈ cands.map Prod.fst := by
  unfold nameAt
  rw [getD_eq_get cands ("", "") h]
  exact List.mem_map_of_mem Prod.fst (cands.get_mem w h)

theorem dictGetD_mem {m : List (String × String)} {k : String}
    (h : k ∈ m.map Prod.fst) : (k, dictGetD m k) ∈ m := by
  induction m with
  | nil => simp at h
  | cons p rest ih =>
      by_cases hk : p.1 = k
      · have : dictGetD (p :: rest) k = p.2 := by
          simp [dictGetD, hk]
        rw [this]
        have hp : p = (k, p.2) := by
          cases p
          simp_all
        rw [← hp]
        exact List.mem_cons_self _ _
      · have : dictGetD (p :: rest) k = dictGetD rest k := by
          simp [dictGetD, hk]
        rw [this]
        apply List.mem_cons_of_mem
        apply ih
        rw [List.map_cons] at h
        rcases List.mem_cons.mp h with h' | h'
        · exact absurd h'.symm hk
        · exact h'

theorem dictGetD_nodup (cands : List (String × String))
    (hnd : (cands.map Prod.fst).Nodup) :
    ∀ w, w < cands.length → dictGetD cands (nameAt cands w) = textAt cands w := by
  induction cands with
  | nil => intro w hw; simp at hw
  | cons p rest ih =>
      have hnd' : p.1 ∉ rest.map Prod.fst ∧ (rest.map Prod.fst).Nodup := by
        simpa [List.nodup_cons] using hnd
      intro w hw
      cases w with
      | zero =>
          simp [dictGetD, nameAt, textAt]
      | succ n =>
          have hn : n < rest.length := by simpa using hw
          have hkey : nameAt rest n ∈ rest.map Prod.fst := nameAt_mem_keys hn
          have hne : p.1 ≠ nameAt rest n := fun he => hnd'.1 (he ▸ hkey)
          have h1 : nameAt (p :: rest) (n + 1) = nameAt rest n := by
            simp [nameAt]
          have h2 : textAt (p :: rest) (n + 1) = textAt rest n := by
            simp [textAt]
          rw [h1, h2]
          simp only [dictGetD]
          rw [if_neg hne]
          exact ih hnd'.2 n hn

theorem nameAt_ne_of_nodup {cands : List (String × String)}
    (hnd : (cands.map Prod.fst).Nodup) {i w : Nat}
    (hi : i < cands.length) (hw : w < cands.length) (hne : i ≠ w) :
    nameAt cands i ≠ nameAt cands w := by
  intro he
  have hi' : i < (cands.map Prod.fst).length := by simpa using hi
  have hw' : w < (cands.map Prod.fst).length := by simpa using hw
  have hgi : (cands.map Prod.fst).get ⟨i, hi'⟩ = nameAt cands i := by
    rw [List.get_map]
    unfold nameAt
    rw [getD_eq_get cands ("", "") hi]
  have hgw : (cands.map Prod.fst).get ⟨w, hw'⟩ = nameAt cands w := by
    rw [List.get_map]
    unfold nameAt
    rw [getD_eq_get cands ("", "") hw]
  have key : (cands.map Prod.fst).get ⟨i, hi'⟩ = (cands.map Prod.fst).get ⟨w, hw'⟩ := by
    rw [hgi, hgw]
    exact he
  have hfin := (List.Nodup.get_inj_iff hnd).mp key
  simp only [Fin.mk.injEq] at hfin
  exact hne hfin

theorem mem_scoredOf {cands : List (String × String)} {t : ScoreTriple}
    (h : t ∈ scoredOf cands) :
    ∃ w, w < cands.length ∧ scoredTriple cands w = t := by
  unfold scoredOf at h
  rcases List.mem_map.mp h with ⟨w, hw, ht⟩
  exact ⟨w, List.mem_range.mp hw, ht⟩

/-- Characterisation of `_choose_consensus` for N ≥ 2 candidates: it returns
the text and metadata of the index maximising (mean similarity, text length,
name) lexicographically, the name compared descending by code points. -/
theorem choose_consensus_spec (cands : List (String × String))
    (h2 : 2 ≤ cands.length) (hnd : (cands.map Prod.fst).Nodup) :
    ∃ w, w < cands.length ∧
      choose_consensus cands =
        .ok (textAt cands w,
          ⟨nameAt cands w, some (meanSimTo cands w), pairwiseMatrix cands⟩) ∧
      ∀ i, i < cands.length → i ≠ w →
        meanSimTo cands i < meanSimTo cands w ∨
        (meanSimTo cands i = meanSimTo cands w ∧
          ((textAt cands i).length < (textAt cands w).length ∨
            ((textAt cands i).length = (textAt cands w).length ∧
              strLtB (nameAt cands i).data (nameAt cands w).data = true))) := by
  cases cands with
  | nil => simp at h2
  | cons c1 rest =>
      cases rest with
      | nil => simp at h2
      | cons c2 cs =>
          set L := c1 :: c2 :: cs with hL
          have hlen2 : 2 ≤ L.length := h2
          have hnsc : scoredOf L ≠ [] := by
            unfold scoredOf
            simp [hL]
          rcases sortTriplesDesc_head_max _ hnsc with ⟨t, r, hs, hmem, hmax⟩
          rcases mem_scoredOf hmem with ⟨w, hw, hts⟩
          refine ⟨w, hw, ?_, ?_⟩
          · show choose_consensus L = _
            have hred : choose_consensus L =
                (match sortTriplesDesc (scoredOf L) with
                 | [] => Except.error "No OCR candidates provided"
                 | (avg, _, best) :: _ =>
                     Except.ok (dictGetD L best,
                       ⟨best, some avg, pairwiseMatrix L⟩)) := rfl
            rw [hred, hs, ← hts]
            show Except.ok (dictGetD L (nameAt L w),
                ({ winner := nameAt L w, avg_similarity := some (meanSimTo L w),
                   pairwise_similarity := pairwiseMatrix L } : ConsensusMeta)) =
              Except.ok (textAt L w,
                ({ winner := nameAt L w, avg_similarity := some (meanSimTo L w),
                   pairwise_similarity := pairwiseMatrix L } : ConsensusMeta))
            rw [dictGetD_nodup L hnd w hw]
          · intro i hi hine
            have hmemi : scoredTriple L i ∈ scoredOf L := by
              unfold scoredOf
              exact List.mem_map_of_mem _ (List.mem_range.mpr hi)
            have hle := hmax _ hmemi
            rw [← hts] at hle
            have hdisj := (tripleLe_iff _ _).mp hle
            rcases hdisj with h | ⟨hqe, h⟩
            · exact Or.inl h
            · refine Or.inr ⟨hqe, ?_⟩
              rcases h with h | ⟨hle2, h⟩
              · exact Or.inl h
              · refine Or.inr ⟨hle2, ?_⟩
                have hnn : nameAt L i ≠ nameAt L w :=
                  nameAt_ne_of_nodup hnd hi hw hine
                apply strLtB_of_le_of_ne _ _ h
                intro hd
                exact hnn (string_ext' hd)

/-- C1 (amended): for every page processed with N ≥ 2 configured engines
(with distinct names, as Python dict keys are), the consensus winner is the
engine whose mean pairwise similarity is highest; ties break by longer raw
text, and remaining ties break by the lexicographically GREATER engine name
(by code point) — a consequence of `scored.sort(reverse=True)` — not by
configured engine order. -/
theorem c1_consensus_medoid_rule (cands : List (String × String))
    (h2 : 2 ≤ cands.length) (hnd : (cands.map Prod.fst).Nodup) :
    ∃ w, w < cands.length ∧
      choose_consensus cands =
        .ok (textAt cands w,
          ⟨nameAt cands w, some (meanSimTo cands w), pairwiseMatrix cands⟩) ∧
      ∀ i, i < cands.length → i ≠ w →
        meanSimTo cands i < meanSimTo cands w ∨
        (meanSimTo cands i = meanSimTo cands w ∧
          ((textAt cands i).length < (textAt cands w).length ∨
            ((textAt cands i).length = (textAt cands w).length ∧
              strLtB (nameAt cands i).data (nameAt cands w).data = true))) :=
  choose_consensus_spec cands h2 hnd

/-- C1 counterexample: two engines `"a"` then `"b"` (configured in that
order) with identical texts tie on mean similarity and on length, yet the
winner is `"b"`, not the first-listed `"a"` the claim demands. -/
theorem c1_counterexample :
    meanSimTo [("a", "xx"), ("b", "xx")] 0 = meanSimTo [("a", "xx"), ("b", "xx")] 1 ∧
    (textAt [("a", "xx"), ("b", "xx")] 0).length =
      (textAt [("a", "xx"), ("b", "xx")] 1).length ∧
    (∃ m : ConsensusMeta,
      choose_consensus [("a", "xx"), ("b", "xx")] = .ok ("xx", m) ∧
      m.winner = "b") ∧
    ("b" : String) ≠ "a" := by
  have htie : meanSimTo [("a", "xx"), ("b", "xx")] 0 =
      meanSimTo [("a", "xx"), ("b", "xx")] 1 := rfl
  refine ⟨htie, rfl, ?_, by decide⟩
  obtain ⟨w, hw, heq, hmax⟩ :=
    choose_consensus_spec [("a", "xx"), ("b", "xx")] (by decide) (by decide)
  have hw2 : w < 2 := hw
  match w, hw2 with
  | 0, _ =>
      rcases hmax 1 (by decide) (by decide) with h | ⟨he, h | ⟨hl, h⟩⟩
      · rw [htie] at h
        exact absurd h (lt_irrefl _)
      · exact absurd h (by decide)
      · exact absurd h (by decide)
  | 1, _ =>
      exact ⟨⟨"b", some (meanSimTo [("a", "xx"), ("b", "xx")] 1),
        pairwiseMatrix [("a", "xx"), ("b", "xx")]⟩, heq, rfl⟩

/-- Witness for C1 at a concrete two-engine candidates dict. -/
theorem c1_consensus_medoid_rule_witness :
    2 ≤ ([("a", "xx"), ("b", "xx")] : List (String × String)).length ∧
    (([("a", "xx"), ("b", "xx")] : List (String × String)).map Prod.fst).Nodup ∧
    (∃ w, w < ([("a", "xx"), ("b", "xx")] : List (String × String)).length ∧
      choose_consensus [("a", "xx"), ("b", "xx")] =
        .ok (textAt [("a", "xx"), ("b", "xx")] w,
          ⟨nameAt [("a", "xx"), ("b", "xx")] w,
           some (meanSimTo [("a", "xx"), ("b", "xx")] w),
           pairwiseMatrix [("a", "xx"), ("b", "xx")]⟩) ∧
      ∀ i, i < ([("a", "xx"), ("b", "xx")] : List (String × String)).length → i ≠ w →
        meanSimTo [("a", "xx"), ("b", "xx")] i <
          meanSimTo [("a", "xx"), ("b", "xx")] w ∨
        (meanSimTo [("a", "xx"), ("b", "xx")] i =
          meanSimTo [("a", "xx"), ("b", "xx")] w ∧
          ((textAt [("a", "xx"), ("b", "xx")] i).length <
            (textAt [("a", "xx"), ("b", "xx")] w).length ∨
            ((textAt [("a", "xx"), ("b", "xx")] i).length =
              (textAt [("a", "xx"), ("b", "xx")] w).length ∧
              strLtB (nameAt [("a", "xx"), ("b", "xx")] i).data
                (nameAt [("a", "xx"), ("b", "xx")] w).data = true)))) :=
  ⟨by decide, by decide,
   c1_consensus_medoid_rule [("a", "xx"), ("b", "xx")] (by decide) (by decide)⟩

theorem run_ok_elim {ocr : OcrOracle} {pages : List OcrPageInput}
    {cfg : OcrEnsembleConfig} {res : OcrEnsembleResult}
    (h : run_ocr_ensemble ocr pages cfg = .ok res) :
    runPages ocr cfg pages = .ok res.pages ∧
    res.merged_text = pyStrip (strJoin (res.pages.map chunkOf)) ++ "\n" ∧
    res.overall_passed =
      res.pages.foldl (fun ok r => ok && r.passed_gate) true := by
  unfold run_ocr_ensemble at h
  by_cases he : cfg.engines = []
  · rw [if_pos he] at h
    cases h
  · rw [if_neg he] at h
    cases hrp : runPages ocr cfg pages with
    | error e => rw [hrp] at h; cases h
    | ok results =>
        rw [hrp] at h
        injection h with h'
        subst h'
        exact ⟨rfl, rfl, rfl⟩

theorem foldl_and_eq_all (l : List OcrPageResult) (b : Bool) :
    l.foldl (fun ok r => ok && r.passed_gate) b =
      (b && l.all (fun r => r.passed_gate)) := by
  induction l generalizing b with
  | nil => simp
  | cons r rs ih =>
      simp only [List.foldl_cons, List.all_cons, ih, Bool.and_assoc]

theorem all_eq_false_iff (l : List OcrPageResult) :
    l.all (fun r => r.passed_gate) = false ↔
      ∃ r ∈ l, r.passed_gate = false := by
  induction l with
  | nil => simp
  | cons r rs ih =>
      simp only [List.all_cons, Bool.and_eq_false_iff, ih]
      constructor
      · intro h
        rcases h with h | ⟨x, hx, hpx⟩
        · exact ⟨r, List.mem_cons_self _ _, h⟩
        · exact ⟨x, List.mem_cons_of_mem _ hx, hpx⟩
      · intro ⟨x, hx, hpx⟩
        rcases List.mem_cons.mp hx with hx | hx
        · exact Or.inl (hx ▸ hpx)
        · exact Or.inr ⟨x, hx, hpx⟩

/-- C4: the `overall_passed` flag of a completed run equals the conjunction
of `passed_gate` over all pages, and is false exactly when some page failed
its gate. -/
theorem c4_overall_passed (ocr : OcrOracle) (pages : List OcrPageInput)
    (cfg : OcrEnsembleConfig) (res : OcrEnsembleResult)
    (h : run_ocr_ensemble ocr pages cfg = .ok res) :
    res.overall_passed = res.pages.all (fun r => r.passed_gate) ∧
    (res.overall_passed = false ↔ ∃ r ∈ res.pages, r.passed_gate = false) := by
  obtain ⟨-, -, hov⟩ := run_ok_elim h
  rw [hov, foldl_and_eq_all, Bool.true_and]
  exact ⟨rfl, all_eq_false_iff res.pages⟩

theorem dictInsert_ne_nil {α : Type} (m : List (String × α)) (k : String) (v : α) :
    dictInsert m k v ≠ [] := by
  cases m with
  | nil => simp [dictInsert]
  | cons p rest =>
      unfold dictInsert
      split_ifs <;> simp

theorem foldl_dictInsert_ne_nil {α : Type} (f : OcrEngineSpec → α) :
    ∀ (es : List OcrEngineSpec) (m : List (String × α)),
      es ≠ [] ∨ m ≠ [] →
      es.foldl (fun d e => dictInsert d e.engine (f e)) m ≠ [] := by
  intro es
  induction es with
  | nil =>
      intro m h
      rcases h with h | h
      · exact absurd rfl h
      · simpa using h
  | cons e es' ih =>
      intro m _
      simp only [List.foldl_cons]
      exact ih (dictInsert m e.engine (f e)) (Or.inr (dictInsert_ne_nil m _ _))

theorem choose_consensus_total (cands : List (String × String)) (h : cands ≠ []) :
    ∃ out, choose_consensus cands = .ok out := by
  cases cands with
  | nil => exact absurd rfl h
  | cons c rest =>
      cases rest with
      | nil => exact ⟨(c.2, ⟨c.1, none, []⟩), rfl⟩
      | cons c2 cs =>
          have hnsc : scoredOf (c :: c2 :: cs) ≠ [] := by
            unfold scoredOf
            simp
          rcases sortTriplesDesc_head_max _ hnsc with ⟨t, r, hs, -, -⟩
          refine ⟨(dictGetD (c :: c2 :: cs) t.2.2,
            ⟨t.2.2, some t.1, pairwiseMatrix (c :: c2 :: cs)⟩), ?_⟩
          have hred : choose_consensus (c :: c2 :: cs) =
              (match sortTriplesDesc (scoredOf (c :: c2 :: cs)) with
               | [] => Except.error "No OCR candidates provided"
               | (avg, _, best) :: _ =>
                   Except.ok (dictGetD (c :: c2 :: cs) best,
                     ⟨best, some avg, pairwiseMatrix (c :: c2 :: cs)⟩)) := rfl
          rw [hred, hs]

theorem processPage_total (ocr : OcrOracle) (cfg : OcrEnsembleConfig)
    (page : OcrPageInput) (h : cfg.engines ≠ []) :
    ∃ r, processPage ocr cfg page = .ok r := by
  unfold processPage
  have hne : cfg.engines.foldl
      (fun d e => dictInsert d e.engine (ocr e page cfg.prompt cfg.max_tokens)) [] ≠ [] :=
    foldl_dictInsert_ne_nil _ cfg.engines [] (Or.inl h)
  rcases choose_consensus_total _ hne with ⟨out, hout⟩
  dsimp only
  rw [hout]
  exact ⟨_, rfl⟩

theorem runPages_total (ocr : OcrOracle) (cfg : OcrEnsembleConfig)
    (h : cfg.engines ≠ []) :
    ∀ pages : List OcrPageInput, ∃ rs, runPages ocr cfg pages = .ok rs := by
  intro pages
  induction pages with
  | nil => exact ⟨[], rfl⟩
  | cons p ps ih =>
      rcases processPage_total ocr cfg p h with ⟨r, hr⟩
      rcases ih with ⟨rs, hrs⟩
      refine ⟨r :: rs, ?_⟩
      unfold runPages
      rw [hr, hrs]

theorem run_total (ocr : OcrOracle) (pages : List OcrPageInput)
    (cfg : OcrEnsembleConfig) (h : cfg.engines ≠ []) :
    ∃ res, run_ocr_ensemble ocr pages cfg = .ok res := by
  rcases runPages_total ocr cfg h pages with ⟨rs, hrs⟩
  refine ⟨{ pages := rs,
            merged_text := pyStrip (strJoin (rs.map chunkOf)) ++ "
",
            overall_passed := rs.foldl (fun ok r => ok && r.passed_gate) true }, ?_⟩
  unfold run_ocr_ensemble
  rw [if_neg h, hrs]

/-- Witness for C4 on a concrete completed run. -/
theorem c4_overall_passed_witness :
    ∃ res, run_ocr_ensemble demoOracleHello [demoPage1] demoCfg1 = .ok res ∧
      (res.overall_passed = res.pages.all (fun r => r.passed_gate) ∧
       (res.overall_passed = false ↔ ∃ r ∈ res.pages, r.passed_gate = false)) := by
  obtain ⟨res, hres⟩ :=
    run_total demoOracleHello [demoPage1] demoCfg1 (by simp [demoCfg1])
  exact ⟨res, hres, c4_overall_passed demoOracleHello [demoPage1] demoCfg1 res hres⟩

theorem choose_consensus_mem {cands : List (String × String)}
    {t : String} {m : ConsensusMeta}
    (h : choose_consensus cands = .ok (t, m)) : ∃ e, (e, t) ∈ cands := by
  cases cands with
  | nil => cases h
  | cons c rest =>
      cases rest with
      | nil =>
          have hred : choose_consensus [c] = .ok (c.2, ⟨c.1, none, []⟩) := rfl
          rw [hred] at h
          injection h with h'
          have ht : t = c.2 := congrArg Prod.fst h'.symm
          refine ⟨c.1, ?_⟩
          rw [ht]
          exact List.mem_cons_self _ _
      | cons c2 cs =>
          have hnsc : scoredOf (c :: c2 :: cs) ≠ [] := by
            unfold scoredOf
            simp
          rcases sortTriplesDesc_head_max _ hnsc with ⟨tt, r, hs, hmem, -⟩
          have hred : choose_consensus (c :: c2 :: cs) =
              (match sortTriplesDesc (scoredOf (c :: c2 :: cs)) with
               | [] => Except.error "No OCR candidates provided"
               | (avg, _, best) :: _ =>
                   Except.ok (dictGetD (c :: c2 :: cs) best,
                     ⟨best, some avg, pairwiseMatrix (c :: c2 :: cs)⟩)) := rfl
          rw [hred, hs] at h
          have h' : dictGetD (c :: c2 :: cs) tt.2.2 = t := by
            have := congrArg (fun x => match x with
              | Except.ok (p : String × ConsensusMeta) => p.1
              | Except.error _ => "") h
            simpa using this
          rcases mem_scoredOf hmem with ⟨w, hw, hts⟩
          have hname : tt.2.2 = nameAt (c :: c2 :: cs) w := by
            rw [← hts]
            rfl
          have hkey : tt.2.2 ∈ (c :: c2 :: cs).map Prod.fst := by
            rw [hname]
            exact nameAt_mem_keys hw
          refine ⟨tt.2.2, ?_⟩
          rw [← h']
          exact dictGetD_mem hkey

theorem processPage_ok_elim {ocr : OcrOracle} {cfg : OcrEnsembleConfig}
    {page : OcrPageInput} {r : OcrPageResult}
    (h : processPage ocr cfg page = .ok r) :
    r.page_number = page.page_number ∧
    choose_consensus r.engine_texts = .ok (r.consensus_text, r.consensus_meta) := by
  unfold processPage at h
  dsimp only at h
  cases hcc : choose_consensus (cfg.engines.foldl
      (fun d e => dictInsert d e.engine (ocr e page cfg.prompt cfg.max_tokens)) []) with
  | error e => rw [hcc] at h; cases h
  | ok out =>
      rw [hcc] at h
      injection h with h'
      subst h'
      exact ⟨rfl, hcc⟩

theorem runPages_ok_pointwise {ocr : OcrOracle} {cfg : OcrEnsembleConfig} :
    ∀ {ps : List OcrPageInput} {rs : List OcrPageResult},
      runPages ocr cfg ps = .ok rs →
      rs.length = ps.length ∧
      ∀ i (hi : i < rs.length) (hp : i < ps.length),
        processPage ocr cfg (ps.get ⟨i, hp⟩) = .ok (rs.get ⟨i, hi⟩) := by
  intro ps
  induction ps with
  | nil =>
      intro rs h
      have hrs : rs = [] := by
        have : Except.ok ([] : List OcrPageResult) = Except.ok rs := h
        injection this with h'
        exact h'.symm
      subst hrs
      exact ⟨rfl, by intro i hi hp; simp at hi⟩
  | cons p ps' ih =>
      intro rs h
      unfold runPages at h
      cases hpp : processPage ocr cfg p with
      | error e => rw [hpp] at h; cases h
      | ok r =>
          rw [hpp] at h
          cases hrp : runPages ocr cfg ps' with
          | error e => rw [hrp] at h; cases h
          | ok rs' =>
              rw [hrp] at h
              injection h with h'
              subst h'
              rcases ih hrp with ⟨hlen, hpt⟩
              refine ⟨by simp [hlen], ?_⟩
              intro i hi hp
              cases i with
              | zero => exact hpp
              | succ n =>
                  have hi' : n < rs'.length := by simpa using hi
                  have hp' : n < ps'.length := by simpa using hp
                  exact hpt n hi' hp'

/-- C6: in every completed run the pages of the result correspond one-to-one,
in order, to the supplied page inputs (same length, same page numbers
position by position), and each page's consensus text is verbatim one of
that page's engine texts. -/
theorem c6_consensus_verbatim_and_order (ocr : OcrOracle)
    (pages : List OcrPageInput) (cfg : OcrEnsembleConfig)
    (res : OcrEnsembleResult) (h : run_ocr_ensemble ocr pages cfg = .ok res) :
    res.pages.length = pages.length ∧
    ∀ i (hi : i < res.pages.length) (hp : i < pages.length),
      (res.pages.get ⟨i, hi⟩).page_number = (pages.get ⟨i, hp⟩).page_number ∧
      ∃ e, (e, (res.pages.get ⟨i, hi⟩).consensus_text) ∈
        (res.pages.get ⟨i, hi⟩).engine_texts := by
  obtain ⟨hrp, -, -⟩ := run_ok_elim h
  rcases runPages_ok_pointwise hrp with ⟨hlen, hpt⟩
  refine ⟨hlen, ?_⟩
  intro i hi hp
  have hpe := hpt i hi hp
  rcases processPage_ok_elim hpe with ⟨hpn, hcc⟩
  exact ⟨hpn, choose_consensus_mem hcc⟩

/-- Witness for C6 on a concrete completed two-engine run. -/
theorem c6_consensus_verbatim_and_order_witness :
    ∃ res, run_ocr_ensemble demoOracleAB [demoPage1] demoCfg2 = .ok res ∧
      (res.pages.length = ([demoPage1] : List OcrPageInput).length ∧
       ∀ i (hi : i < res.pages.length)
         (hp : i < ([demoPage1] : List OcrPageInput).length),
         (res.pages.get ⟨i, hi⟩).page_number =
           (([demoPage1] : List OcrPageInput).get ⟨i, hp⟩).page_number ∧
         ∃ e, (e, (res.pages.get ⟨i, hi⟩).consensus_text) ∈
           (res.pages.get ⟨i, hi⟩).engine_texts) := by
  obtain ⟨res, hres⟩ :=
    run_total demoOracleAB [demoPage1] demoCfg2 (by simp [demoCfg2])
  exact ⟨res, hres,
    c6_consensus_verbatim_and_order demoOracleAB [demoPage1] demoCfg2 res hres⟩

theorem strData_append (s t : String) : (s ++ t).data = s.data ++ t.data := by
  cases s with
  | mk a =>
      cases t with
      | mk b => rfl

theorem chunkOf_eq (r : OcrPageResult) :
    chunkOf r = "\n\n" ++ pageBlock r.page_number r.consensus_text := by
  apply string_ext'
  simp [chunkOf, pageBlock, strData_append]

theorem strJoin_map_chunk :
    ∀ (r : OcrPageResult) (rs : List OcrPageResult),
      strJoin ((r :: rs).map chunkOf) =
        "\n\n" ++ sepJoin ((r :: rs).map
          (fun x => pageBlock x.page_number x.consensus_text)) := by
  intro r rs
  induction rs generalizing r with
  | nil =>
      apply string_ext'
      simp [strJoin, sepJoin, chunkOf_eq, strData_append]
  | cons r2 rs' ih =>
      apply string_ext'
      have hjoin : strJoin ((r :: r2 :: rs').map chunkOf) =
          chunkOf r ++ strJoin ((r2 :: rs').map chunkOf) := rfl
      have hsep : sepJoin ((r :: r2 :: rs').map
          (fun x => pageBlock x.page_number x.consensus_text)) =
          pageBlock r.page_number r.consensus_text ++ "\n\n" ++
            sepJoin ((r2 :: rs').map
              (fun x => pageBlock x.page_number x.consensus_text)) := rfl
      rw [hjoin, hsep, ih r2]
      simp [chunkOf_eq, strData_append, List.append_assoc]

theorem pyStrip_prepend_nn (s : String) : pyStrip ("\n\n" ++ s) = pyStrip s := by
  apply string_ext'
  rw [pyStrip_data, pyStrip_data, strData_append]
  have h2 : ("\n\n" : String).data = ['\n', '\n'] := rfl
  rw [h2]
  show pyStripList ('\n' :: '\n' :: s.data) = pyStripList s.data
  rw [pyStripList_cons_space (by decide), pyStripList_cons_space (by decide)]

theorem dash_mem_pageBlock (n : Nat) (t : String) :
    '-' ∈ (pageBlock n t).data := by
  unfold pageBlock
  rw [strData_append, strData_append, strData_append]
  apply List.mem_append_left
  apply List.mem_append_left
  apply List.mem_append_left
  decide

theorem dash_mem_sepJoin (b : String) (bs : List String) (hb : '-' ∈ b.data) :
    '-' ∈ (sepJoin (b :: bs)).data := by
  cases bs with
  | nil => exact hb
  | cons b2 bs' =>
      have hred : sepJoin (b :: b2 :: bs') = b ++ "\n\n" ++ sepJoin (b2 :: bs') := rfl
      rw [hred, strData_append, strData_append]
      exact List.mem_append_left _ (List.mem_append_left _ hb)

/-- C5: the merged text of a completed run over at least one page is the
blank-line-separated sequence of page blocks — each the delimiter line
`--- PAGE <n> ---` followed by that page's trimmed consensus text, in input
page order — stripped of surrounding whitespace, plus exactly one trailing
newline (the character before the final newline, when any, is never
whitespace). -/
theorem c5_merge_structure (ocr : OcrOracle) (pages : List OcrPageInput)
    (cfg : OcrEnsembleConfig) (res : OcrEnsembleResult)
    (h : run_ocr_ensemble ocr pages cfg = .ok res) (hne : pages ≠ []) :
    res.merged_text =
      pyStrip (sepJoin (res.pages.map
        (fun r => pageBlock r.page_number r.consensus_text))) ++ "\n" ∧
    ∃ body : List Char,
      res.merged_text.data = body ++ ['\n'] ∧ body ≠ [] ∧
      ∀ c, body.getLast? = some c → isPySpace c = false := by
  obtain ⟨hrp, hmg, -⟩ := run_ok_elim h
  rcases runPages_ok_pointwise hrp with ⟨hlen, -⟩
  have hrne : res.pages ≠ [] := by
    intro hnil
    rw [hnil] at hlen
    exact hne (List.eq_nil_of_length_eq_zero hlen.symm)
  obtain ⟨r0, rs0, hcons⟩ := List.exists_cons_of_ne_nil hrne
  have hd : '-' ∈ (sepJoin ((r0 :: rs0).map
      (fun r => pageBlock r.page_number r.consensus_text))).data := by
    apply dash_mem_sepJoin
    exact dash_mem_pageBlock _ _
  have hbody : (pyStrip (sepJoin ((r0 :: rs0).map
      (fun r => pageBlock r.page_number r.consensus_text)))).data ≠ [] := by
    rw [pyStrip_data]
    exact pyStripList_ne_nil ⟨'-', hd, by decide⟩
  have hA : res.merged_text.data = (pyStrip (sepJoin ((r0 :: rs0).map
      (fun r => pageBlock r.page_number r.consensus_text)))).data ++ ['\n'] := by
    rw [hmg, hcons, strJoin_map_chunk, pyStrip_prepend_nn]
    exact strData_append _ _
  have hC : ∀ c, ((pyStrip (sepJoin ((r0 :: rs0).map
      (fun r => pageBlock r.page_number r.consensus_text)))).data).getLast? =
        some c → isPySpace c = false := by
    intro c hc
    rw [pyStrip_data] at hc
    exact pyStripList_getLast_not_space hc
  constructor
  · rw [hmg, hcons, strJoin_map_chunk, pyStrip_prepend_nn]
  · exact ⟨_, hA, hbody, hC⟩

/-- Witness for C5 on a concrete one-page run. -/
theorem c5_merge_structure_witness :
    ([demoPage1] : List OcrPageInput) ≠ [] ∧
    ∃ res, run_ocr_ensemble demoOracleHello [demoPage1] demoCfg1 = .ok res ∧
      (res.merged_text = pyStrip (sepJoin (res.pages.map
        (fun r => pageBlock r.page_number r.consensus_text))) ++ "\n" ∧
       ∃ body : List Char,
         res.merged_text.data = body ++ ['\n'] ∧ body ≠ [] ∧
         ∀ c, body.getLast? = some c → isPySpace c = false) := by
  refine ⟨by simp, ?_⟩
  obtain ⟨res, hres⟩ :=
    run_total demoOracleHello [demoPage1] demoCfg1 (by simp [demoCfg1])
  exact ⟨res, hres,
    c5_merge_structure demoOracleHello [demoPage1] demoCfg1 res hres (by simp)⟩
